import Mathlib

/-!
Verification of the ghrel release-installer against its code.

Each Python module of the repository is shallowly embedded as Lean
definitions; machine integers are `Nat` with explicit `% 2 ^ 32` where
overflow matters, fallible code returns `Except`, and the file system is
an explicit association list from path strings to byte lists.
-/

namespace Ghrel

/-- A byte is a `Nat`; byte strings are lists of bytes. -/
abbrev Bytes := List Nat

/-- File system model: association list from path strings to file contents. -/
abbrev FS := List (String × Bytes)

/-- Look up a file's contents. -/
def fsRead (fs : FS) (path : String) : Option Bytes :=
  match fs with
  | [] => none
  | e :: rest => if e.1 = path then some e.2 else fsRead rest path

/-- Write (create or overwrite) a file. -/
def fsWrite (fs : FS) (path : String) (data : Bytes) : FS :=
  match fs with
  | [] => [(path, data)]
  | e :: rest => if e.1 = path then (path, data) :: rest else e :: fsWrite rest path data

/-- Remove a file if present. -/
def fsRemove (fs : FS) (path : String) : FS :=
  fs.filter (fun e => !(e.1 = path : Bool))

/-! ### SHA-256 (embedding of `hashlib.sha256` as used by `ghrel.install.compute_sha256`) -/

/-- 2 ^ 32, the modulus for 32-bit words. -/
def w32mod : Nat := 4294967296

/-- 32-bit addition. -/
def add32 (a b : Nat) : Nat := (a + b) % w32mod

/-- 32-bit right rotation (assumes `x < 2 ^ 32`). -/
def rotr32 (n x : Nat) : Nat := Nat.lor (x >>> n) ((x <<< (32 - n)) % w32mod)

/-- 32-bit complement. -/
def not32 (x : Nat) : Nat := Nat.xor x (w32mod - 1)

/-- SHA-256 Ch function. -/
def shaCh (x y z : Nat) : Nat := Nat.xor (Nat.land x y) (Nat.land (not32 x) z)

/-- SHA-256 Maj function. -/
def shaMaj (x y z : Nat) : Nat :=
  Nat.xor (Nat.land x y) (Nat.xor (Nat.land x z) (Nat.land y z))

/-- SHA-256 big Sigma0. -/
def bigS0 (x : Nat) : Nat := Nat.xor (rotr32 2 x) (Nat.xor (rotr32 13 x) (rotr32 22 x))

/-- SHA-256 big Sigma1. -/
def bigS1 (x : Nat) : Nat := Nat.xor (rotr32 6 x) (Nat.xor (rotr32 11 x) (rotr32 25 x))

/-- SHA-256 small sigma0. -/
def smallS0 (x : Nat) : Nat := Nat.xor (rotr32 7 x) (Nat.xor (rotr32 18 x) (x >>> 3))

/-- SHA-256 small sigma1. -/
def smallS1 (x : Nat) : Nat := Nat.xor (rotr32 17 x) (Nat.xor (rotr32 19 x) (x >>> 10))

/-- SHA-256 round constants (FIPS 180-4, written in decimal). -/
def shaK : List Nat :=
  [1116352408, 1899447441, 3049323471, 3921009573, 961987163, 1508970993,
   2453635748, 2870763221, 3624381080, 310598401, 607225278, 1426881987,
   1925078388, 2162078206, 2614888103, 3248222580, 3835390401, 4022224774,
   264347078, 604807628, 770255983, 1249150122, 1555081692, 1996064986,
   2554220882, 2821834349, 2952996808, 3210313671, 3336571891, 3584528711,
   113926993, 338241895, 666307205, 773529912, 1294757372, 1396182291,
   1695183700, 1986661051, 2177026350, 2456956037, 2730485921, 2820302411,
   3259730800, 3345764771, 3516065817, 3600352804, 4094571909, 275423344,
   430227734, 506948616, 659060556, 883997877, 958139571, 1322822218,
   1537002063, 1747873779, 1955562222, 2024104815, 2227730452, 2361852424,
   2428436474, 2756734187, 3204031479, 3329325298]

/-- SHA-256 initial hash value (FIPS 180-4, written in decimal). -/
def shaH0 : List Nat :=
  [1779033703, 3144134277, 1013904242, 2773480762,
   1359893119, 2600822924, 528734635, 1541459225]

/-- Pad a byte message per FIPS 180-4: append 0x80, zeros, and the 64-bit
big-endian bit length, reaching a multiple of 64 bytes. -/
def padMessage (msg : Bytes) : Bytes :=
  let bitLen := msg.length * 8
  let zeros := (119 - msg.length % 64) % 64
  msg ++ [0x80] ++ List.replicate zeros 0 ++
    [(bitLen >>> 56) % 256, (bitLen >>> 48) % 256, (bitLen >>> 40) % 256,
     (bitLen >>> 32) % 256, (bitLen >>> 24) % 256, (bitLen >>> 16) % 256,
     (bitLen >>> 8) % 256, bitLen % 256]

/-- Group bytes into big-endian 32-bit words. -/
def toWords : Bytes → List Nat
  | a :: b :: c :: d :: rest => (a * 16777216 + b * 65536 + c * 256 + d) :: toWords rest
  | _ => []

/-- Split a word list into 16-word blocks. -/
def toBlocks : List Nat → List (List Nat)
  | w1 :: w2 :: w3 :: w4 :: w5 :: w6 :: w7 :: w8 ::
    w9 :: w10 :: w11 :: w12 :: w13 :: w14 :: w15 :: w16 :: rest =>
      [w1, w2, w3, w4, w5, w6, w7, w8, w9, w10, w11, w12, w13, w14, w15, w16] ::
        toBlocks rest
  | [] => []
  | ws => [ws]

/-- Extend a 16-word block to the 64-word message schedule. -/
def extendW (block : List Nat) : List Nat :=
  (List.range 48).foldl
    (fun acc _ =>
      let n := acc.length
      acc ++ [add32 (add32 (smallS1 (acc.getD (n - 2) 0)) (acc.getD (n - 7) 0))
                (add32 (smallS0 (acc.getD (n - 15) 0)) (acc.getD (n - 16) 0))])
    block

/-- One SHA-256 compression step over a (schedule word, round constant) pair. -/
def shaRound (s : List Nat) (wk : Nat × Nat) : List Nat :=
  match s with
  | [a, b, c, d, e, f, g, h] =>
    let t1 := add32 h (add32 (bigS1 e) (add32 (shaCh e f g) (add32 wk.2 wk.1)))
    let t2 := add32 (bigS0 a) (shaMaj a b c)
    [add32 t1 t2, a, b, c, add32 d t1, e, f, g]
  | other => other

/-- Compress one 512-bit block into the running hash state. -/
def compressBlock (h : List Nat) (block : List Nat) : List Nat :=
  let w := extendW block
  let st := (w.zip shaK).foldl shaRound h
  List.zipWith add32 h st

/-- SHA-256 of a byte message, as eight 32-bit words. -/
def sha256 (msg : Bytes) : List Nat :=
  (toBlocks (toWords (padMessage msg))).foldl compressBlock shaH0

/-- A hexadecimal digit character. -/
def hexDigit (n : Nat) : Char := if n < 10 then Char.ofNat (48 + n) else Char.ofNat (87 + n)

/-- Eight lowercase hex digits of a 32-bit word. -/
def wordHex (w : Nat) : List Char :=
  [hexDigit ((w >>> 28) % 16), hexDigit ((w >>> 24) % 16), hexDigit ((w >>> 20) % 16),
   hexDigit ((w >>> 16) % 16), hexDigit ((w >>> 12) % 16), hexDigit ((w >>> 8) % 16),
   hexDigit ((w >>> 4) % 16), hexDigit (w % 16)]

/-- `ghrel.install.compute_sha256`: the `sha256:`-prefixed lowercase hex digest
of a file's bytes. -/
def compute_sha256 (data : Bytes) : String :=
  "sha256:" ++ String.mk ((sha256 data).foldr (fun w acc => wordHex w ++ acc) [])

/-! ### Errors (embedding of `ghrel.errors.GhrelError`) -/

/-- `ghrel.errors.GhrelError`: a user-facing error with message and optional hint. -/
structure GhrelError where
  message : String
  hint : Option String := none
deriving DecidableEq

/-! ### State store (embedding of `ghrel.state`) -/

/-- `ghrel.state.PackageState`. `binary_fpath` models a `pathlib.Path` by its
`str()` form (two `Path`s are equal iff their string forms are). -/
structure PackageState where
  version : String
  checksum : String
  installed_at : String
  binary_fpath : String
deriving DecidableEq

/-- `ghrel.state.State`: a dict from package name to `PackageState`, modelled
as an insertion-ordered association list with unique keys. -/
structure State where
  packages : List (String × PackageState)
deriving DecidableEq

/-- Insert-or-replace into an association list, mirroring `d[k] = v` on a
Python dict (replacement keeps the original position). -/
def assocSet {α : Type} (l : List (String × α)) (key : String) (v : α) :
    List (String × α) :=
  match l with
  | [] => [(key, v)]
  | e :: rest => if e.1 = key then (key, v) :: rest else e :: assocSet rest key v

/-- A JSON value, restricted to the shapes the state document uses. -/
inductive Json where
  | str (s : String)
  | obj (fields : List (String × Json))

/-- Association lookup in a JSON object's field list. -/
def jsonLookup (fields : List (String × Json)) (key : String) : Option Json :=
  match fields with
  | [] => none
  | e :: rest => if e.1 = key then some e.2 else jsonLookup rest key

/-- `ghrel.state.StateError` (message only; path/package carried in the text). -/
structure StateErr where
  message : String
deriving DecidableEq

/-- The JSON object serialized for one `PackageState` by `write_state`. -/
def packageStateJson (pkg : PackageState) : Json :=
  Json.obj
    [("version", .str pkg.version), ("checksum", .str pkg.checksum),
     ("installed_at", .str pkg.installed_at), ("binary_path", .str pkg.binary_fpath)]

/-- `ghrel.state.write_state`: the JSON document atomically written to the
state file (`json.dump` of the constructed dict). -/
def write_state (state : State) : Json :=
  Json.obj [("packages", Json.obj (state.packages.map
    (fun e => (e.1, packageStateJson e.2))))]

/-- The four keys `read_state` requires for each package entry, in check order. -/
def requiredKeys : List String := ["version", "checksum", "installed_at", "binary_path"]

/-- Parse one package entry, checking required keys in order first. -/
def readPackage (name : String) (j : Json) : Except StateErr PackageState :=
  match j with
  | .str _ => .error ⟨"Package entry for '" ++ name ++ "' is not an object"⟩
  | .obj fields =>
    match requiredKeys.find? (fun k => (jsonLookup fields k).isNone) with
    | some k => .error ⟨"Missing '" ++ k ++ "' for package '" ++ name ++ "'"⟩
    | none =>
      match jsonLookup fields "version", jsonLookup fields "checksum",
          jsonLookup fields "installed_at", jsonLookup fields "binary_path" with
      | some (.str v), some (.str c), some (.str ia), some (.str bp) =>
        .ok ⟨v, c, ia, bp⟩
      | _, _, _, _ => .error ⟨"Field for package '" ++ name ++ "' has unexpected type"⟩

/-- Parse all package entries into a fresh dict (`packages[name] = ...` loop). -/
def readPackages (fields : List (String × Json))
    (acc : List (String × PackageState)) :
    Except StateErr (List (String × PackageState)) :=
  match fields with
  | [] => .ok acc
  | (name, pj) :: rest =>
    match readPackage name pj with
    | .error e => .error e
    | .ok ps => readPackages rest (assocSet acc name ps)

/-- `ghrel.state.read_state` applied to a parsed JSON document. -/
def read_state (doc : Json) : Except StateErr State :=
  match doc with
  | .obj fields =>
    match (jsonLookup fields "packages").getD (Json.obj []) with
    | .obj pkgFields =>
      match readPackages pkgFields [] with
      | .error e => .error e
      | .ok packages => .ok ⟨packages⟩
    | .str _ => .error ⟨"State 'packages' is not an object"⟩
  | .str _ => .error ⟨"State document is not an object"⟩

/-! ### Plan resolution (embedding of `ghrel.cli._make_plan`, decision part) -/

/-- The decision table of `_make_plan` after release, asset, and target path
are resolved: given the recorded state (or none), the desired version, the
computed target install path, and the on-disk file system, return the
`(action, reason)` pair. -/
def makePlanDecision (currentState : Option PackageState)
    (desiredVersion installPath : String) (disk : FS) : String × Option String :=
  match currentState with
  | none => ("install", none)
  | some st =>
    if st.binary_fpath ≠ installPath then ("reinstall", some "binary_path_changed")
    else if st.version ≠ desiredVersion then ("update", none)
    else
      match fsRead disk st.binary_fpath with
      | none => ("reinstall", some "binary_missing")
      | some content =>
        if compute_sha256 content ≠ st.checksum then
          ("reinstall", some "checksum_mismatch")
        else ("up_to_date", none)

/-- The decision table as the specification states it: six rules evaluated in
order — no state, path changed, version changed, binary missing on disk,
checksum drift, otherwise up to date. -/
def planSpecDecision (currentState : Option PackageState)
    (desiredVersion installPath : String) (disk : FS) : String × Option String :=
  match currentState with
  | none => ("install", none)
  | some st =>
    if st.binary_fpath ≠ installPath then ("reinstall", some "binary_path_changed")
    else if st.version ≠ desiredVersion then ("update", none)
    else if (fsRead disk st.binary_fpath).isNone then ("reinstall", some "binary_missing")
    else if compute_sha256 ((fsRead disk st.binary_fpath).getD []) ≠ st.checksum then
      ("reinstall", some "checksum_mismatch")
    else ("up_to_date", none)

/-! ### Atomic install (embedding of `ghrel.install._install_binary`)

The copy step (`shutil.copy`) is modelled by an explicit parameter `copied`:
the bytes that actually land in the temporary file, so that a corrupted copy
is expressible. `chmod 0o755` has no counterpart in the byte-level model. -/

/-- `_install_binary`: copy to `dest + ".tmp"`, compare the source checksum
with the freshly recomputed checksum of the copy, and only on a match rename
the temp file over the destination. Returns the updated file system and the
returned checksum or raised error. -/
def installBinary (fs : FS) (source dest : String) (copied : Bytes) :
    FS × Except GhrelError String :=
  let tmp := dest ++ ".tmp"
  if source = tmp then
    (fs, .error ⟨"Same file: " ++ source, none⟩)
  else
    match fsRead fs source with
    | none => (fs, .error ⟨"No such file: " ++ source, none⟩)
    | some srcContent =>
      let fs1 := fsWrite fs tmp copied
      let sourceChecksum := compute_sha256 srcContent
      let tmpChecksum := compute_sha256 copied
      if sourceChecksum ≠ tmpChecksum then
        (fs1, .error ⟨"Checksum mismatch copying " ++ source ++ " to " ++ dest, none⟩)
      else
        (fsWrite (fsRemove fs1 tmp) dest copied, .ok sourceChecksum)

/-! ### Release client error classification (embedding of
`ghrel.github.GitHubClient._request_raw`, status handling) -/

/-- The error raised for one HTTP response status. -/
inductive HttpErr where
  | notFound (message : String)
  | auth (message : String) (hint : String)
  | ghrel (message : String) (hint : Option String)
deriving DecidableEq

/-- Python truthiness of the stored token (`if self._token:`). -/
def tokenTruthy : Option String → Bool
  | none => false
  | some t => t ≠ ""

/-- Status classification in `_request_raw`: 404, then 401/403 split on the
token, then any other ≥ 400; lower statuses raise nothing. -/
def classifyResponse (token : Option String) (status : Nat) (url : String) :
    Option HttpErr :=
  if status = 404 then
    some (.notFound ("Resource not found: " ++ url))
  else if status = 401 ∨ status = 403 then
    if tokenTruthy token then
      some (.auth "GitHub authentication failed."
        "Check your GITHUB_TOKEN. If invalid or expired, create a new one.")
    else
      some (.ghrel "GitHub API rate limit exceeded."
        (some "Set GITHUB_TOKEN to increase the limit."))
  else if status ≥ 400 then
    some (.ghrel ("GitHub API error (" ++ toString status ++ ") for " ++ url) none)
  else none

/-- The classification as the specification states it: 404 is NotFound;
401/403 is an authentication failure exactly when a credential was supplied
and otherwise a rate-limit error hinting to set a credential; any other
status of 400 or above is a generic API error carrying status and URL. -/
def classifySpec (token : Option String) (status : Nat) (url : String) :
    Option HttpErr :=
  if status = 404 then
    some (.notFound ("Resource not found: " ++ url))
  else if status = 401 ∨ status = 403 then
    (if tokenTruthy token then
      some (.auth "GitHub authentication failed."
        "Check your GITHUB_TOKEN. If invalid or expired, create a new one.")
    else
      some (.ghrel "GitHub API rate limit exceeded."
        (some "Set GITHUB_TOKEN to increase the limit.")))
  else if 400 ≤ status then
    some (.ghrel ("GitHub API error (" ++ toString status ++ ") for " ++ url) none)
  else none

/-! ### Release metadata (embedding of `ghrel.github` dataclasses) -/

/-- `ghrel.github.ReleaseAsset`. -/
structure ReleaseAsset where
  name : String
  url : String
deriving DecidableEq

/-- `ghrel.github.Release`. -/
structure Release where
  tag : String
  assets : List ReleaseAsset
deriving DecidableEq

/-! ### Glob matching (embedding of `fnmatch.fnmatch` on POSIX, where
`os.path.normcase` is the identity) -/

/-- Python truthiness of an optional string (`if value:`). -/
def pyTruthy : Option String → Bool
  | none => false
  | some s => s ≠ ""

/-- Does the first list start with the second? -/
def startsWith : List Char → List Char → Bool
  | _, [] => true
  | [], _ :: _ => false
  | h :: hs, n :: ns => h = n && startsWith hs ns

/-- Substring test: does `hay` contain `needle` contiguously? -/
def containsSub (hay needle : List Char) : Bool :=
  match hay with
  | [] => startsWith [] needle
  | c :: t => startsWith (c :: t) needle || containsSub t needle

/-- Substring test on strings (Python `needle in hay`). -/
def strContains (hay needle : String) : Bool := containsSub hay.data needle.data

/-- Split a list at the first occurrence of `c`, dropping it. -/
def breakAt (c : Char) : List Char → Option (List Char × List Char)
  | [] => none
  | x :: t =>
    if x = c then some ([], t)
    else
      match breakAt c t with
      | some (a, b) => some (x :: a, b)
      | none => none

/-- Bracket-set body: a leading `]` is a literal member, then contents up
to the closing `]`. `none` means the bracket is unclosed. -/
def splitClassAux (neg : Bool) (l : List Char) : Option (Bool × List Char × List Char) :=
  if l.head? = some ']' then
    match breakAt ']' l.tail with
    | some (a, b) => some (neg, ']' :: a, b)
    | none => none
  else
    match breakAt ']' l with
    | some (a, b) => some (neg, a, b)
    | none => none

/-- Parse a bracket set after `[`: optional `!` negation, a leading `]`
taken literally, then contents up to the closing `]`. `none` means the
bracket is unclosed and `[` is a literal (as in `fnmatch.translate`). -/
def splitClass (l : List Char) : Option (Bool × List Char × List Char) :=
  if l.head? = some '!' then splitClassAux true l.tail
  else splitClassAux false l

/-- Membership of a character in bracket-set contents, with `a-b` ranges. -/
def classMember : List Char → Char → Bool
  | a :: '-' :: b :: rest, c =>
    (a ≤ c && c ≤ b) || classMember rest c
  | a :: rest, c => a = c || classMember rest c
  | [], _ => false

/-- One parsed glob token. -/
inductive GlobTok where
  | star
  | anyChar
  | classTok (neg : Bool) (items : List Char)
  | lit (c : Char)

/-- Parser loop with explicit fuel; each step consumes at least one input
character (the bracket case strictly shrinks the rest), so fuel equal to
the input length always suffices. -/
def parseGlobF : Nat → List Char → List GlobTok
  | 0, _ => []
  | _ + 1, [] => []
  | fuel + 1, '*' :: t => .star :: parseGlobF fuel t
  | fuel + 1, '?' :: t => .anyChar :: parseGlobF fuel t
  | fuel + 1, '[' :: t =>
    (match splitClass t with
     | some (neg, items, rest) => .classTok neg items :: parseGlobF fuel rest
     | none => .lit '[' :: parseGlobF fuel t)
  | fuel + 1, c :: t => .lit c :: parseGlobF fuel t

/-- Parse a glob pattern into tokens (`*`, `?`, bracket sets, literals). -/
def parseGlob (l : List Char) : List GlobTok := parseGlobF l.length l

/-- Token matcher with explicit fuel (the recursion is lexicographic in
pattern and string length; `fuel = pattern length + string length + 1`
always suffices). -/
def tokMatchF : Nat → List GlobTok → List Char → Bool
  | 0, _, _ => false
  | _ + 1, [], [] => true
  | _ + 1, [], _ :: _ => false
  | fuel + 1, .star :: ps, s =>
    tokMatchF fuel ps s ||
      (match s with
       | [] => false
       | _ :: t => tokMatchF fuel (.star :: ps) t)
  | fuel + 1, .anyChar :: ps, s =>
    (match s with
     | [] => false
     | _ :: t => tokMatchF fuel ps t)
  | fuel + 1, .classTok neg items :: ps, s =>
    (match s with
     | [] => false
     | c :: t => (neg != classMember items c) && tokMatchF fuel ps t)
  | fuel + 1, .lit p :: ps, s =>
    (match s with
     | [] => false
     | c :: t => (p = c : Bool) && tokMatchF fuel ps t)

/-- `fnmatch.fnmatch(name, pattern)` on POSIX. -/
def fnmatchB (name pattern : String) : Bool :=
  let toks := parseGlob pattern.data
  tokMatchF (toks.length + name.data.length + 1) toks name.data

/-! ### Asset selection (embedding of `ghrel.install`) -/

/-- `_match_assets_by_pattern`: keep the assets whose name matches the glob. -/
def match_assets_by_pattern (assets : List ReleaseAsset) (pattern : String) :
    List ReleaseAsset :=
  assets.filter (fun a => fnmatchB a.name pattern)

/-- `str.join` (Python `sep.join(parts)`). -/
def joinSep (sep : String) : List String → String
  | [] => ""
  | [x] => x
  | x :: y :: rest => x ++ sep ++ joinSep sep (y :: rest)

/-- `_format_asset_matches`: bulleted list of matching asset names. -/
def format_asset_matches (ms : List ReleaseAsset) : String :=
  match ms with
  | [] => "  - (none)"
  | _ => "  - " ++ joinSep "\n  - " (ms.map (fun a => a.name))

/-- `_require_single_match`: exactly one matching asset, with distinct
diagnostics for the zero and multiple cases keyed on pattern truthiness. -/
def require_single_match (ms : List ReleaseAsset) (pattern : Option String)
    (pkg version : String) : Except GhrelError ReleaseAsset :=
  match ms with
  | [] =>
    if pyTruthy pattern then
      .error ⟨"No assets match pattern \x27" ++ pattern.getD "" ++ "\x27 for " ++
        pkg ++ " " ++ version,
        some "Make the pattern less specific, or check the release assets."⟩
    else
      .error ⟨"No assets match platform for " ++ pkg ++ " " ++ version,
        some "Set an explicit asset pattern in the package file."⟩
  | [a] => .ok a
  | _ :: _ :: _ =>
    let names := format_asset_matches ms
    if pyTruthy pattern then
      .error ⟨"Multiple assets match \x27" ++ pattern.getD "" ++ "\x27 for " ++
        pkg ++ " " ++ version ++ ":\n" ++ names,
        some "Make the pattern more specific."⟩
    else
      .error ⟨"Multiple assets match platform for " ++ pkg ++ " " ++ version ++
        ":\n" ++ names,
        some "Set an explicit asset pattern in the package file."⟩

/-! ### Levenshtein distance and closest keys (embedding of
`ghrel.install._levenshtein` / `_get_closest_matches`) -/

/-- Inner loop of the row-based DP: walk the previous row and the right-hand
characters in lockstep, carrying the last value of the current row. -/
def levStep (lc : Char) : List Nat → Nat → List Char → List Nat
  | pj1 :: pj :: prest, lastCur, rc :: rcs =>
    let insertCost := lastCur + 1
    let deleteCost := pj + 1
    let replaceCost := pj1 + (if lc = rc then 0 else 1)
    let m := min insertCost (min deleteCost replaceCost)
    m :: levStep lc (pj :: prest) m rcs
  | _, _, _ => []

/-- Outer loop over the left-hand characters (row index starts at 1). -/
def levRows (rchars : List Char) : List Char → List Nat → Nat → List Nat
  | [], prev, _ => prev
  | lc :: lcs, prev, i => levRows rchars lcs (i :: levStep lc prev i rchars) (i + 1)

/-- `_levenshtein`: edit distance with the same early returns as the code. -/
def levenshtein (left right : String) : Nat :=
  if left = right then 0
  else if left.data = [] then right.data.length
  else if right.data = [] then left.data.length
  else
    let final := levRows right.data left.data (List.range (right.data.length + 1)) 1
    (final.getLast?).getD 0

/-- Lexicographic `Bool` comparison of char lists (Python string `<=`). -/
def charListLe : List Char → List Char → Bool
  | [], _ => true
  | _ :: _, [] => false
  | a :: as_, b :: bs => if a = b then charListLe as_ bs else decide (a < b)

/-- String `<=` as Python compares strings (codepoint lexicographic). -/
def strLeB (a b : String) : Bool := charListLe a.data b.data

/-- Python tuple comparison `(distance, key) <= (distance, key)`. -/
def pairLe (a b : Nat × String) : Bool :=
  a.1 < b.1 || (a.1 = b.1 && strLeB a.2 b.2)

/-- `_get_closest_matches`: keys sorted by `(edit distance, key)` (a stable
sort, as Python's `sorted`), truncated to `limit`. -/
def get_closest_matches (target : String) (keys : List String) (limit : Nat) :
    List String :=
  match keys with
  | [] => []
  | _ :: _ =>
    (((keys.map (fun k => (levenshtein target k, k))).mergeSort pairLe).take
      limit).map (fun p => p.2)

/-! ### Platform-pattern dict resolution (embedding of
`ghrel.install._get_platform_pattern` / `_format_dict_block`) -/

/-- Association lookup (Python `key in d` / `d[key]`). -/
def assocFind {α : Type} (l : List (String × α)) (key : String) : Option α :=
  match l with
  | [] => none
  | e :: rest => if e.1 = key then some e.2 else assocFind rest key

/-- Python `repr` of an ordinary string (quote wrapping; escaping of special
characters inside the text is not modelled). -/
def pyRepr (s : String) : String := "\x27" ++ s ++ "\x27"

/-- `_format_dict_block`: render the dict with its keys sorted. -/
def format_dict_block (nm : String) (value : List (String × String)) :
    List String :=
  match value with
  | [] => [nm ++ " = \x7b\x7d"]
  | _ :: _ =>
    (nm ++ " = \x7b") ::
      ((value.map (fun e => e.1)).mergeSort strLeB).map
        (fun k => "    " ++ pyRepr k ++ ": " ++ pyRepr ((assocFind value k).getD "") ++ ",")
      ++ ["\x7d"]

/-- `_get_platform_pattern`: resolve a platform→pattern dict to the current
platform key, or fail with the rendered dict and the closest keys. -/
def get_platform_pattern (value : List (String × String))
    (platform_key nm package_fpath : String) : Except GhrelError String :=
  match value with
  | [] =>
    .error ⟨joinSep "\n"
      (["Platform \x27" ++ platform_key ++ "\x27 not found in empty " ++ nm ++ " dict",
        "", "In " ++ package_fpath ++ ":"] ++
        (format_dict_block nm value).map (fun line => "  " ++ line)),
      some ("Add a \x27" ++ platform_key ++ "\x27 key with a wildcard match, " ++
        "like \x7b\x27" ++ platform_key ++ "\x27: \x27*\x27\x7d. Because \x27*\x27 can match multiple " ++
        "assets, run sync again and pick a more specific pattern if " ++
        "you get a multiple-assets error.")⟩
  | _ :: _ =>
    match assocFind value platform_key with
    | some pat => .ok pat
    | none =>
      let closest := get_closest_matches platform_key (value.map (fun e => e.1)) 2
      let closestStr := match closest with
        | [] => "(none)"
        | _ :: _ => joinSep ", " closest
      .error ⟨joinSep "\n"
        (["Platform \x27" ++ platform_key ++ "\x27 not found in " ++ nm ++ " dict",
          "", "In " ++ package_fpath ++ ":"] ++
          (format_dict_block nm value).map (fun line => "  " ++ line) ++
          ["", "Closest matches: " ++ closestStr]),
        some ("Add a \x27" ++ platform_key ++ "\x27 key to the " ++ nm ++ " dict.")⟩

/-! ### Package loading and installed-name computation (embedding of
`ghrel.packages._load_package` and `ghrel.install.get_install_as`) -/

/-- `ghrel.packages.PackageConfig` (hooks omitted; they are opaque callables). -/
structure PackageConfig where
  name : String
  pkg : String
  binary : Option String
  install_as : Option String
  asset : Option String
  version : Option String
  archive : Bool
  package_fpath : String
deriving DecidableEq

/-- `pathlib.PurePath.stem` of a file name (final component given): the name
with its last suffix removed; a leading dot does not start a suffix. -/
def pyStem (filename : String) : String :=
  let cs := filename.data
  match (cs.reverse.findIdx? (fun c => c = '.')) with
  | some j =>
    let k := cs.length - 1 - j
    if 0 < k ∧ k < cs.length - 1 then String.mk (cs.take k) else filename
  | none => filename

/-- Split a character list on a separator (Python `str.split(sep)`:
an empty input gives one empty field). -/
def splitChars (sep : Char) : List Char → List (List Char)
  | [] => [[]]
  | c :: t =>
    if c = sep then [] :: splitChars sep t
    else
      match splitChars sep t with
      | h :: rest => (c :: h) :: rest
      | [] => [[c]]

/-- Split a string on `/` into its fields. -/
def splitSlash (s : String) : List String := (splitChars '/' s.data).map String.mk

/-- `pathlib.PurePosixPath(p).name`: last component after dropping empty
and `.` parts (`..` is kept). -/
def posixBasename (p : String) : String :=
  match ((splitSlash p).filter (fun comp => comp ≠ "" && comp ≠ ".")).getLast? with
  | some last => last
  | none => ""

/-- `_validate_pkg_name`: `owner/repo` with both halves non-empty
(split at the first slash, as `split("/", maxsplit=1)`). -/
def pkgNameValid (pkg : String) : Bool :=
  match breakAt '/' pkg.data with
  | some (owner, repo) => !owner.isEmpty && !repo.isEmpty
  | none => false

/-- `_load_package`, validation part: given the package file's final
component and the module attributes (after `_get_required_attr` /
`_get_optional_attr` type checks), produce the validated config or the
`ConfigError`. `archive` defaults to `True`; a missing `install_as` for an
archive package defaults to the binary's basename before validation. -/
def load_package (package_fname : String) (pkg : String)
    (archiveAttr : Option Bool) (binaryAttr installAsAttr : Option String)
    (assetAttr versionAttr : Option String) (package_fpath : String) :
    Except GhrelError PackageConfig :=
  let name := pyStem package_fname
  if ¬ pkgNameValid pkg then
    .error ⟨"Invalid pkg \x27" ++ pkg ++ "\x27 in " ++ package_fpath,
      some "Expected format \x27owner/repo\x27."⟩
  else
    let archive := archiveAttr.getD true
    if archive ∧ binaryAttr = none then
      .error ⟨"Missing required attribute \x27binary\x27 in " ++ package_fpath, none⟩
    else
      let install_as :=
        if archive ∧ installAsAttr = none then
          some (posixBasename (binaryAttr.getD ""))
        else installAsAttr
      match install_as with
      | none =>
        .ok ⟨name, pkg, binaryAttr, none, assetAttr, versionAttr, archive,
          package_fpath⟩
      | some s =>
        if s = "" then
          .error ⟨"Invalid install_as \x27" ++ s ++ "\x27 in " ++ package_fpath,
            some "install_as must be a non-empty filename."⟩
        else if s.data.contains '/' ∨ s.data.contains '\\' then
          .error ⟨"Invalid install_as \x27" ++ s ++ "\x27 in " ++ package_fpath,
            some "install_as must be a filename, not a path."⟩
        else
          .ok ⟨name, pkg, binaryAttr, some s, assetAttr, versionAttr, archive,
            package_fpath⟩

/-- `ghrel.install.get_install_as`: the explicit (truthy) `install_as`,
else the package name; the asset argument is unused. -/
def get_install_as (package : PackageConfig) (asset : ReleaseAsset) : String :=
  match package.install_as with
  | some s => if s ≠ "" then s else package.name
  | none => package.name

/-! ### Platform alias keys and the inference matcher
(embedding of `ghrel.platform.get_os_keys` / `get_arch_keys`) -/

/-- `get_os_keys` (`none` models the raised `PlatformError`). -/
def get_os_keys : String → Option (List String)
  | "darwin" => some ["darwin", "macos", "mac", "osx"]
  | "linux" => some ["linux"]
  | _ => none

/-- `get_arch_keys` (`none` models the raised `PlatformError`). -/
def get_arch_keys : String → Option (List String)
  | "arm64" => some ["arm64", "aarch64"]
  | "x86_64" => some ["x86_64", "amd64", "x64"]
  | _ => none

/-- ASCII lowercasing of a string (`str.lower` on ASCII asset names). -/
def lowerStr (s : String) : String := String.mk (s.data.map Char.toLower)

/-- Modelled from the spec: the platform-inference asset matcher itself is
missing from the sources (`get_os_keys`/`get_arch_keys` are declared but
never called, and `_require_single_match` keeps dead `pattern=None`
branches for this mode); per §4.2 an asset matches only if its lower-cased
name contains at least one OS alias AND at least one arch alias token. -/
def match_assets_by_platform (assets : List ReleaseAsset)
    (osKeys archKeys : List String) : List ReleaseAsset :=
  assets.filter (fun a =>
    osKeys.any (fun k => strContains (lowerStr a.name) k) &&
      archKeys.any (fun k => strContains (lowerStr a.name) k))

/-- Modelled from the spec: platform-inference selection composes the
inference matcher with `_require_single_match` under `pattern=None`. -/
def select_asset_inferred (os_name arch : String) (assets : List ReleaseAsset)
    (pkg version : String) : Except GhrelError ReleaseAsset :=
  match get_os_keys os_name, get_arch_keys arch with
  | some osKeys, some archKeys =>
    require_single_match (match_assets_by_platform assets osKeys archKeys)
      none pkg version
  | _, _ => .error ⟨"Unsupported platform", none⟩

/-! ### Archive extraction (embedding of `ghrel.archive`) -/

/-- Declared entry type of an archive member. -/
inductive EntryKind where
  | file
  | dir
  | symlink
  | hardlink
deriving DecidableEq

/-- One archive entry: its declared name and type. -/
structure ArchiveEntry where
  name : String
  kind : EntryKind
deriving DecidableEq

/-- `PurePosixPath(name).is_absolute()`. -/
def isAbsName (name : String) : Bool :=
  match name.data with
  | '/' :: _ => true
  | _ => false

/-- Lexical resolution of `destRoot / name` (`Path.resolve(strict=False)` on
a fresh, symlink-free destination): split on `/`, drop empty and `.` parts,
let `..` pop one component. The root is a component list below `/`. -/
def normJoin (root : List String) (name : String) : List String :=
  (splitSlash name).foldl
    (fun acc comp =>
      if comp = "" ∨ comp = "." then acc
      else if comp = ".." then acc.dropLast
      else acc ++ [comp])
    root

/-- `_is_within_directory`: `target.relative_to(base)` succeeds iff the
base's components are a prefix of the target's. -/
def isWithinDirectory (base target : List String) : Bool :=
  base.isPrefixOf target

/-- The tar pre-pass over one member: link types first, then absolute
names, then escape from the destination root. -/
def tarUnsafe (root : List String) (m : ArchiveEntry) : Option GhrelError :=
  if m.kind = .symlink ∨ m.kind = .hardlink then
    some ⟨"Unsafe link in archive: " ++ m.name,
      some "Archive contains symlink or hardlink entries."⟩
  else if isAbsName m.name then
    some ⟨"Unsafe path in archive: " ++ m.name,
      some "Archive contains absolute paths."⟩
  else if ¬ isWithinDirectory root (normJoin root m.name) then
    some ⟨"Unsafe path in archive: " ++ m.name,
      some "Archive contains path traversal entries."⟩
  else none

/-- The zip pre-pass over one entry: absolute names, then escape; the
declared entry type is never inspected. -/
def zipUnsafe (root : List String) (m : ArchiveEntry) : Option GhrelError :=
  if isAbsName m.name then
    some ⟨"Unsafe path in archive: " ++ m.name,
      some "Archive contains absolute paths."⟩
  else if ¬ isWithinDirectory root (normJoin root m.name) then
    some ⟨"Unsafe path in archive: " ++ m.name,
      some "Archive contains path traversal entries."⟩
  else none

/-- Validation loop: first failing entry wins, in archive order. -/
def firstUnsafe (check : ArchiveEntry → Option GhrelError) :
    List ArchiveEntry → Option GhrelError
  | [] => none
  | m :: rest =>
    match check m with
    | some e => some e
    | none => firstUnsafe check rest

/-- `_extract_tar`: validate every member, then extract all of them; on a
validation error nothing is written. The `ok` payload is the list of
entry names written into the destination. -/
def extract_tar (members : List ArchiveEntry) (destRoot : List String) :
    Except GhrelError (List String) :=
  match firstUnsafe (tarUnsafe destRoot) members with
  | some e => .error e
  | none => .ok (members.map (fun m => m.name))

/-- `_extract_zip`: validate every entry name, then extract all of them; on
a validation error nothing is written. -/
def extract_zip (entries : List ArchiveEntry) (destRoot : List String) :
    Except GhrelError (List String) :=
  match firstUnsafe (zipUnsafe destRoot) entries with
  | some e => .error e
  | none => .ok (entries.map (fun m => m.name))

/-! ## Helper lemmas -/

theorem fsRead_fsWrite (fs : FS) (p q : String) (v : Bytes) :
    fsRead (fsWrite fs p v) q = if q = p then some v else fsRead fs q := by
  induction fs with
  | nil =>
    by_cases h : q = p
    · simp [fsWrite, fsRead, h]
    · have h2 : ¬(p = q) := fun hh => h hh.symm
      simp [fsWrite, fsRead, h, h2]
  | cons e rest ih =>
    by_cases hep : e.1 = p
    · by_cases hq : q = p
      · simp [fsWrite, fsRead, hep, hq]
      · have hpq : ¬(p = q) := fun hh => hq hh.symm
        have heq : ¬(e.1 = q) := by rw [hep]; exact hpq
        simp [fsWrite, fsRead, hep, hq, hpq, heq]
    · by_cases heq : e.1 = q
      · have hq : ¬(q = p) := by intro hh; rw [hh] at heq; exact hep heq
        simp [fsWrite, fsRead, hep, heq, hq]
      · simp [fsWrite, fsRead, hep, heq, ih]

theorem append_tmp_ne (s : String) : s ≠ s ++ ".tmp" := by
  intro h
  have hlen := congrArg String.length h
  rw [String.length_append] at hlen
  have h4 : ".tmp".length = 4 := rfl
  omega

theorem firstUnsafe_error (check : ArchiveEntry → Option GhrelError) :
    ∀ (l : List ArchiveEntry), (∃ m ∈ l, check m ≠ none) →
      ∃ e, firstUnsafe check l = some e := by
  intro l
  induction l with
  | nil => rintro ⟨m, hm, _⟩; cases hm
  | cons x rest ih =>
    rintro ⟨m, hm, hcheck⟩
    rcases List.mem_cons.mp hm with heq | hmem
    · subst heq
      cases hx : check m with
      | none => exact absurd hx hcheck
      | some e => exact ⟨e, by simp [firstUnsafe, hx]⟩
    · cases hx : check x with
      | none =>
        obtain ⟨e, he⟩ := ih ⟨m, hmem, hcheck⟩
        exact ⟨e, by simp [firstUnsafe, hx, he]⟩
      | some e => exact ⟨e, by simp [firstUnsafe, hx]⟩

/-! ## Claims -/

/-- C1: plan resolution follows the strict decision table, in order: no
current state → install; recorded binary path ≠ target path → reinstall
(binary_path_changed), even when versions agree; version ≠ desired →
update; binary absent on disk → reinstall (binary_missing); recomputed
checksum ≠ recorded → reinstall (checksum_mismatch); otherwise up_to_date.
`makePlanDecision` is the code's chain from `_make_plan`;
`planSpecDecision` is the table as the specification words it. -/
theorem claim_C1 (currentState : Option PackageState)
    (desiredVersion installPath : String) (disk : FS) :
    makePlanDecision currentState desiredVersion installPath disk =
      planSpecDecision currentState desiredVersion installPath disk := by
  cases currentState with
  | none => rfl
  | some st =>
    simp only [makePlanDecision, planSpecDecision]
    by_cases h1 : st.binary_fpath ≠ installPath
    · simp [h1]
    · by_cases h2 : st.version ≠ desiredVersion
      · simp [h1, h2]
      · cases hf : fsRead disk st.binary_fpath with
        | none => simp [h1, h2, hf]
        | some content => simp [h1, h2, hf]

/-- C8: HTTP status classification — 404 raises NotFound (and nothing else
does); on 401/403 an authentication failure is raised exactly when the
stored credential is truthy, else a rate-limit error hinting to set a
credential; any other status ≥ 400 raises a generic API error carrying the
status code and URL; statuses below 400 raise nothing. -/
theorem claim_C8 (token : Option String) (status : Nat) (url : String) :
    (classifyResponse token status url =
        some (.notFound ("Resource not found: " ++ url)) ↔ status = 404) ∧
    ((status = 401 ∨ status = 403) →
      (tokenTruthy token = true →
        classifyResponse token status url =
          some (.auth "GitHub authentication failed."
            "Check your GITHUB_TOKEN. If invalid or expired, create a new one.")) ∧
      (tokenTruthy token = false →
        classifyResponse token status url =
          some (.ghrel "GitHub API rate limit exceeded."
            (some "Set GITHUB_TOKEN to increase the limit.")))) ∧
    (400 ≤ status → status ≠ 401 → status ≠ 403 → status ≠ 404 →
      classifyResponse token status url =
        some (.ghrel ("GitHub API error (" ++ toString status ++ ") for " ++ url)
          none)) ∧
    (status < 400 → classifyResponse token status url = none) := by
  by_cases h404 : status = 404
  · subst h404
    refine ⟨by simp [classifyResponse], ?_, ?_, ?_⟩
    · rintro (h | h) <;> omega
    · intro _ h _ _; omega
    · intro h; omega
  · by_cases h4x : status = 401 ∨ status = 403
    · refine ⟨?_, ?_, ?_, ?_⟩
      · cases ht : tokenTruthy token <;>
          simp [classifyResponse, h404, h4x, ht]
      · intro _
        constructor <;> intro ht <;> simp [classifyResponse, h404, h4x, ht]
      · intro _ h1 h3 _
        rcases h4x with h | h <;> [exact absurd h h1; exact absurd h h3]
      · intro h; rcases h4x with h' | h' <;> omega
    · by_cases h400 : 400 ≤ status
      · refine ⟨?_, ?_, ?_, ?_⟩
        · simp [classifyResponse, h404, h4x, h400]
        · intro h; exact absurd h h4x
        · intro _ _ _ _; simp [classifyResponse, h404, h4x, h400]
        · intro h; omega
      · refine ⟨?_, ?_, ?_, ?_⟩
        · simp [classifyResponse, h404, h4x, h400]
        · intro h; exact absurd h h4x
        · intro h; exact absurd h h400
        · intro _; simp [classifyResponse, h404, h4x, h400]

/-- C8 witness: at status 403 with no token, classification yields the
rate-limit error with the set-a-credential hint. -/
theorem claim_C8_witness :
    classifyResponse none 403 "https://api.github.com/x" =
      some (.ghrel "GitHub API rate limit exceeded."
        (some "Set GITHUB_TOKEN to increase the limit.")) :=
  ((claim_C8 none 403 "https://api.github.com/x").2.1 (Or.inr rfl)).2 rfl

/-- C4: with no explicit pattern, asset selection is platform inference —
an asset is kept iff its lower-cased name contains at least one OS alias
and at least one arch alias token — and on the two-asset example for
(linux, x86_64) it selects `t-linux-amd64.tgz`. The inference matcher is
modelled from the spec (see `match_assets_by_platform`). -/
theorem claim_C4 :
    (∀ (assets : List ReleaseAsset) (osKeys archKeys : List String)
        (a : ReleaseAsset),
        a ∈ match_assets_by_platform assets osKeys archKeys ↔
          a ∈ assets ∧ (∃ k ∈ osKeys, strContains (lowerStr a.name) k = true) ∧
            (∃ k ∈ archKeys, strContains (lowerStr a.name) k = true)) ∧
    select_asset_inferred "linux" "x86_64"
        [⟨"t-linux-amd64.tgz", "u1"⟩, ⟨"t-linux-arm64.tgz", "u2"⟩] "o/r" "v1" =
      .ok ⟨"t-linux-amd64.tgz", "u1"⟩ := by
  constructor
  · intro assets osKeys archKeys a
    simp [match_assets_by_platform, List.mem_filter, List.any_eq_true]
  · rfl

/-- C2 counterexample: a zip archive whose only entry declares a symlink
type (with a safe relative name) is NOT rejected — extraction succeeds and
writes the entry — because `_extract_zip` never inspects entry types. -/
theorem claim_C2_counterexample :
    extract_zip [⟨"evil", .symlink⟩] ["tmp", "extract"] = .ok ["evil"] := rfl

/-- C2 (amended): the security pre-pass runs before anything is written —
for tar archives any link-typed, absolute, or root-escaping entry makes
`extract` fail with the archive-unsafe error and write nothing; for zip
archives the same holds for absolute and root-escaping entries, but the
declared entry type is not inspected. -/
theorem claim_C2 :
    (∀ (members : List ArchiveEntry) (root : List String),
        (∃ m ∈ members, tarUnsafe root m ≠ none) →
        ∃ e, extract_tar members root = .error e) ∧
    (∀ (entries : List ArchiveEntry) (root : List String),
        (∃ m ∈ entries, zipUnsafe root m ≠ none) →
        ∃ e, extract_zip entries root = .error e) ∧
    (∀ (root : List String) (m : ArchiveEntry),
        tarUnsafe root m ≠ none ↔
          (m.kind = .symlink ∨ m.kind = .hardlink) ∨ isAbsName m.name = true ∨
            isWithinDirectory root (normJoin root m.name) = false) ∧
    (∀ (root : List String) (m : ArchiveEntry),
        zipUnsafe root m ≠ none ↔
          isAbsName m.name = true ∨
            isWithinDirectory root (normJoin root m.name) = false) := by
  refine ⟨?_, ?_, ?_, ?_⟩
  · intro members root h
    obtain ⟨e, he⟩ := firstUnsafe_error (tarUnsafe root) members h
    exact ⟨e, by simp [extract_tar, he]⟩
  · intro entries root h
    obtain ⟨e, he⟩ := firstUnsafe_error (zipUnsafe root) entries h
    exact ⟨e, by simp [extract_zip, he]⟩
  · intro root m
    simp only [tarUnsafe]
    split_ifs with hk ha hw <;> simp_all
  · intro root m
    simp only [zipUnsafe]
    split_ifs with ha hw <;> simp_all

/-- C2 witness: a tar whose first entry is a hardlink is rejected. -/
theorem claim_C2_witness :
    ∃ e, extract_tar [⟨"evil", .hardlink⟩] ["tmp", "extract"] = .error e :=
  claim_C2.1 [⟨"evil", .hardlink⟩] ["tmp", "extract"]
    ⟨⟨"evil", .hardlink⟩, by simp, by decide⟩

/-- C3: the atomic install copies the source beside the destination,
computes the source checksum and independently recomputes the copy's
checksum; on a mismatch it raises a hard error and the destination is
untouched; on a match it succeeds, the destination holds the copied bytes,
and the returned checksum is the source's `sha256:`-prefixed hex digest. -/
theorem claim_C3 (fs : FS) (source dest : String) (srcContent copied : Bytes)
    (hsrc : fsRead fs source = some srcContent)
    (hne : source ≠ dest ++ ".tmp") :
    (compute_sha256 srcContent ≠ compute_sha256 copied →
      (installBinary fs source dest copied).2 =
        .error ⟨"Checksum mismatch copying " ++ source ++ " to " ++ dest, none⟩ ∧
      fsRead (installBinary fs source dest copied).1 dest = fsRead fs dest) ∧
    (compute_sha256 srcContent = compute_sha256 copied →
      (installBinary fs source dest copied).2 = .ok (compute_sha256 srcContent) ∧
      fsRead (installBinary fs source dest copied).1 dest = some copied ∧
      ∃ rest, compute_sha256 srcContent = "sha256:" ++ rest) := by
  constructor
  · intro hmm
    simp only [installBinary, if_neg hne, hsrc]
    rw [if_pos hmm]
    refine ⟨rfl, ?_⟩
    simp only [fsRead_fsWrite]
    rw [if_neg (append_tmp_ne dest)]
  · intro heqc
    simp only [installBinary, if_neg hne, hsrc]
    rw [if_neg (by simpa using heqc)]
    refine ⟨rfl, ?_, ⟨_, rfl⟩⟩
    simp [fsRead_fsWrite]

/-- C3 witness: with source bytes `[0]` and a corrupted copy `[1]`, the
checksums differ, the install fails, and the destination is untouched. -/
theorem claim_C3_witness :
    (installBinary [("s", [0])] "s" "d" [1]).2 =
      .error ⟨"Checksum mismatch copying " ++ "s" ++ " to " ++ "d", none⟩ ∧
    fsRead (installBinary [("s", [0])] "s" "d" [1]).1 "d" =
      fsRead [("s", [0])] "d" :=
  (claim_C3 [("s", [0])] "s" "d" [0] [1] rfl (by decide)).1 (by decide)

theorem assocSet_append {α : Type} (l : List (String × α)) (key : String) (v : α)
    (h : key ∉ l.map Prod.fst) : assocSet l key v = l ++ [(key, v)] := by
  induction l with
  | nil => rfl
  | cons e rest ih =>
    simp only [List.map_cons, List.mem_cons] at h
    push_neg at h
    have hne : ¬(e.1 = key) := fun hh => h.1 hh.symm
    rw [assocSet, if_neg hne, ih h.2]
    rfl

theorem readPackage_json (name : String) (ps : PackageState) :
    readPackage name (packageStateJson ps) = .ok ps := rfl

theorem readPackages_write (l : List (String × PackageState)) :
    ∀ acc : List (String × PackageState),
      (∀ p ∈ l, p.1 ∉ acc.map Prod.fst) → (l.map Prod.fst).Nodup →
      readPackages (l.map (fun e => (e.1, packageStateJson e.2))) acc =
        .ok (acc ++ l) := by
  induction l with
  | nil => intro acc _ _; simp [readPackages]
  | cons e rest ih =>
    intro acc hdisj hnodup
    simp only [List.map_cons, readPackages, readPackage_json]
    rw [assocSet_append acc e.1 e.2 (hdisj e (List.mem_cons_self e rest))]
    have hdisj2 : ∀ p ∈ rest, p.1 ∉ (acc ++ [(e.1, e.2)]).map Prod.fst := by
      intro p hp
      simp only [List.map_append, List.mem_append, List.map_cons, List.map_nil,
        List.mem_singleton]
      rintro (hmem | hmem)
      · exact hdisj p (List.mem_cons_of_mem e hp) hmem
      · have hhd := (List.nodup_cons.mp hnodup).1
        exact hhd (hmem ▸ List.mem_map_of_mem Prod.fst hp)
    have hnodup2 := (List.nodup_cons.mp hnodup).2
    rw [ih (acc ++ [(e.1, e.2)]) hdisj2 hnodup2]
    simp

/-- C6: writing a `State` and reading it back is the identity, field for
field, whenever the package names are unique (they always are, coming from
a Python dict). -/
theorem claim_C6 (s : State) (h : (s.packages.map Prod.fst).Nodup) :
    read_state (write_state s) = .ok s := by
  obtain ⟨pkgs⟩ := s
  have hr := readPackages_write pkgs [] (by simp) h
  show (match readPackages (pkgs.map fun e => (e.1, packageStateJson e.2)) [] with
        | Except.error e => (Except.error e : Except StateErr State)
        | Except.ok packages => Except.ok (State.mk packages)) =
      Except.ok (State.mk pkgs)
  rw [hr]
  simp

/-- The concrete two-package state used by the C6 witness. -/
def exampleState : State :=
  State.mk
    [("fd", PackageState.mk "v10.2.0" "sha256:aa" "2024-01-15T10:30:00Z"
        "/home/u/.local/bin/fd"),
     ("rg", PackageState.mk "v14.1.0" "sha256:bb" "2024-02-01T08:00:00Z"
        "/home/u/.local/bin/rg")]

/-- C6 witness: a concrete two-package state survives the round trip. -/
theorem claim_C6_witness :
    ((exampleState.packages.map Prod.fst).Nodup) ∧
    read_state (write_state exampleState) = .ok exampleState :=
  ⟨by decide, claim_C6 exampleState (by decide)⟩

theorem startsWith_nil (l : List Char) : startsWith l [] = true := by
  cases l <;> rfl

theorem startsWith_append_self (n v : List Char) : startsWith (n ++ v) n = true := by
  induction n with
  | nil => exact startsWith_nil v
  | cons c t ih => simp [startsWith, ih]

theorem containsSub_of_startsWith {hay n : List Char}
    (h : startsWith hay n = true) : containsSub hay n = true := by
  cases hay with
  | nil => simpa [containsSub] using h
  | cons c t => simp [containsSub, h]

theorem containsSub_append_left (s t n : List Char)
    (h : containsSub t n = true) : containsSub (s ++ t) n = true := by
  induction s with
  | nil => simpa
  | cons c s0 ih => simp [containsSub, ih]

theorem joinSep_contains (sep : String) :
    ∀ (l : List String) (x : String), x ∈ l →
      containsSub (joinSep sep l).data x.data = true := by
  intro l
  induction l with
  | nil => intro x hx; cases hx
  | cons a rest ih =>
    intro x hx
    rcases List.mem_cons.mp hx with heq | hmem
    · subst heq
      cases rest with
      | nil =>
        exact containsSub_of_startsWith
          (by simpa using startsWith_append_self x.data [])
      | cons b rest2 =>
        show containsSub (x ++ sep ++ joinSep sep (b :: rest2)).data x.data = true
        rw [String.data_append, String.data_append, List.append_assoc]
        exact containsSub_of_startsWith (startsWith_append_self x.data _)
    · cases rest with
      | nil => cases hmem
      | cons b rest2 =>
        show containsSub (a ++ sep ++ joinSep sep (b :: rest2)).data x.data = true
        rw [String.data_append, String.data_append, List.append_assoc]
        exact containsSub_append_left _ _ _
          (containsSub_append_left _ _ _ (ih x hmem))

/-- C5: asset selection returns an asset only when exactly one candidate
matches the glob: zero matches raises the no-match error (hint keyed on
the explicit pattern), two or more raises the ambiguous error whose
message lists every matching asset name, and exactly one is returned. -/
theorem claim_C5 (assets : List ReleaseAsset) (p pkg version : String)
    (hp : p ≠ "") :
    (match_assets_by_pattern assets p = [] →
      require_single_match (match_assets_by_pattern assets p) (some p) pkg version =
        .error ⟨"No assets match pattern \x27" ++ p ++ "\x27 for " ++ pkg ++ " " ++
            version,
          some "Make the pattern less specific, or check the release assets."⟩) ∧
    (1 < (match_assets_by_pattern assets p).length →
      ∃ e, require_single_match (match_assets_by_pattern assets p) (some p) pkg
          version = .error e ∧
        e.hint = some "Make the pattern more specific." ∧
        ∀ a ∈ match_assets_by_pattern assets p,
          containsSub e.message.data a.name.data = true) ∧
    (∀ a, match_assets_by_pattern assets p = [a] →
      require_single_match (match_assets_by_pattern assets p) (some p) pkg version =
        .ok a) := by
  refine ⟨?_, ?_, ?_⟩
  · intro h
    rw [h]
    simp [require_single_match, pyTruthy, hp]
  · intro hlen
    cases hms : match_assets_by_pattern assets p with
    | nil => rw [hms] at hlen; simp at hlen
    | cons a rest =>
      cases rest with
      | nil => rw [hms] at hlen; simp at hlen
      | cons b rest2 =>
        refine ⟨⟨"Multiple assets match \x27" ++ p ++ "\x27 for " ++ pkg ++ " " ++
            version ++ ":\n" ++ format_asset_matches (a :: b :: rest2),
            some "Make the pattern more specific."⟩,
          by simp [require_single_match, pyTruthy, hp], rfl, ?_⟩
        intro x hx
        show containsSub
          (("Multiple assets match \x27" ++ p ++ "\x27 for " ++ pkg ++ " " ++ version ++
            ":\n") ++ format_asset_matches (a :: b :: rest2)).data x.name.data = true
        rw [String.data_append]
        apply containsSub_append_left
        show containsSub
          ("  - " ++ joinSep "\n  - " ((a :: b :: rest2).map (fun y => y.name))).data
          x.name.data = true
        rw [String.data_append]
        apply containsSub_append_left
        exact joinSep_contains _ _ _ (List.mem_map_of_mem (fun y => y.name) hx)
  · intro a h
    rw [h]
    rfl

/-- C5 witness: the ambiguous two-match case errors, hints to narrow the
pattern, and its message mentions both matching names. -/
theorem claim_C5_witness :
    ∃ e, require_single_match
        (match_assets_by_pattern
          [⟨"tool-linux-amd64.tar.gz", "a"⟩, ⟨"tool-linux-arm64.tar.gz", "b"⟩]
          "*linux*")
        (some "*linux*") "owner/repo" "v1" = .error e ∧
      e.hint = some "Make the pattern more specific." ∧
      ∀ a ∈ match_assets_by_pattern
          [⟨"tool-linux-amd64.tar.gz", "a"⟩, ⟨"tool-linux-arm64.tar.gz", "b"⟩]
          "*linux*",
        containsSub e.message.data a.name.data = true :=
  (claim_C5 [⟨"tool-linux-amd64.tar.gz", "a"⟩, ⟨"tool-linux-arm64.tar.gz", "b"⟩]
    "*linux*" "owner/repo" "v1" (by decide)).2.1 (by decide)

/-- C7 counterexample: for a validated non-archive package with no
`install_as`, the installed filename is the package name (the file stem),
not the raw asset's basename as the claim states. -/
theorem claim_C7_counterexample :
    load_package "tool.py" "owner/repo" (some false) none none none none
        "/p/tool.py" =
      .ok ⟨"tool", "owner/repo", none, none, none, none, false, "/p/tool.py"⟩ ∧
    get_install_as
        ⟨"tool", "owner/repo", none, none, none, none, false, "/p/tool.py"⟩
        ⟨"tool-linux-amd64", "u"⟩ = "tool" ∧
    posixBasename "tool-linux-amd64" = "tool-linux-amd64" ∧
    ("tool" : String) ≠ "tool-linux-amd64" :=
  ⟨rfl, rfl, rfl, by decide⟩

/-- C7 (amended): the installed filename is the explicit `install_as`
override when configured; else, for archive-based packages, the basename
of the archive-relative binary (made the default `install_as` at load
time); else the package's name (the package file's stem) — not the raw
asset's basename. -/
theorem claim_C7 (package_fname pkg : String) (archiveAttr : Option Bool)
    (binaryAttr installAsAttr assetAttr versionAttr : Option String)
    (fpath : String) (cfg : PackageConfig) (asset : ReleaseAsset)
    (hok : load_package package_fname pkg archiveAttr binaryAttr installAsAttr
      assetAttr versionAttr fpath = .ok cfg) :
    get_install_as cfg asset =
      installAsAttr.getD
        (if archiveAttr.getD true then posixBasename (binaryAttr.getD "")
         else pyStem package_fname) := by
  by_cases hv : pkgNameValid pkg = true
  · cases installAsAttr with
    | some s =>
      by_cases hb : (archiveAttr.getD true = true ∧ binaryAttr = none)
      · simp [load_package, hv, hb] at hok
      · by_cases hs : s = ""
        · simp [load_package, hv, hb, hs] at hok
        · by_cases hsep : ('/' ∈ s.data ∨ '\\' ∈ s.data)
          · simp [load_package, hv, hb, hs, hsep] at hok
          · simp [load_package, hv, hb, hs, hsep] at hok
            subst hok
            simp [get_install_as, hs]
    | none =>
      cases harch : archiveAttr.getD true with
      | false =>
        have hb : ¬(archiveAttr.getD true = true ∧ binaryAttr = none) := by
          simp [harch]
        simp [load_package, hv, hb, harch] at hok
        subst hok
        simp [get_install_as, harch]
      | true =>
        by_cases hbn : binaryAttr = none
        · simp [load_package, hv, harch, hbn] at hok
        · by_cases hs : posixBasename (binaryAttr.getD "") = ""
          · simp [load_package, hv, harch, hbn, hs] at hok
          · by_cases hsep : ('/' ∈ (posixBasename (binaryAttr.getD "")).data ∨
                '\\' ∈ (posixBasename (binaryAttr.getD "")).data)
            · simp [load_package, hv, harch, hbn, hs, hsep] at hok
            · simp [load_package, hv, harch, hbn, hs, hsep] at hok
              subst hok
              simp [get_install_as, harch, hs]
  · simp [load_package, hv] at hok

/-- C7 witness: an archive package without `install_as` installs under the
binary's basename. -/
theorem claim_C7_witness :
    get_install_as
        ⟨"tool", "owner/repo", some "bin/tool", some "tool", none, none, true,
          "/p/tool.py"⟩ ⟨"x", "u"⟩ =
      (none : Option String).getD
        (if (some true).getD true then posixBasename ((some "bin/tool").getD "")
         else pyStem "tool.py") :=
  claim_C7 "tool.py" "owner/repo" (some true) (some "bin/tool") none none none
    "/p/tool.py"
    ⟨"tool", "owner/repo", some "bin/tool", some "tool", none, none, true,
      "/p/tool.py"⟩
    ⟨"x", "u"⟩ rfl

theorem str_ne_empty_iff (s : String) : s ≠ "" ↔ s.data ≠ [] := by
  constructor
  · intro h hdata
    apply h
    cases s with
    | mk data => cases hdata; rfl
  · intro h heq
    exact h (heq ▸ rfl)

theorem pyStem_sub {fname : String} {c : Char}
    (hc : c ∈ (pyStem fname).data) : c ∈ fname.data := by
  simp only [pyStem] at hc
  split at hc
  · split at hc
    · exact List.mem_of_mem_take (by simpa using hc)
    · exact hc
  · exact hc

theorem pyStem_ne_empty {fname : String} (h : fname ≠ "") : pyStem fname ≠ "" := by
  simp only [pyStem]
  split
  next j hj =>
    split
    next hk =>
      rw [str_ne_empty_iff]
      intro habs
      have htake : fname.data.take (fname.data.length - 1 - j) = [] := by
        simpa using habs
      rcases List.take_eq_nil_iff.mp htake with h0 | h0
      · omega
      · exact (str_ne_empty_iff fname).mp h (by simpa using h0)
    next => exact h
  next => exact h

/-- C10 counterexample: a package file named `a\b.py` (legal on Linux and
macOS) loads and validates, yet the fallback installed filename — the
package name, i.e. the file stem — contains a backslash, violating the
claimed no-separator invariant. -/
theorem claim_C10_counterexample :
    load_package "a\\b.py" "o/r" (some false) none none none none "/p/a\\b.py" =
      .ok ⟨"a\\b", "o/r", none, none, none, none, false, "/p/a\\b.py"⟩ ∧
    (get_install_as ⟨"a\\b", "o/r", none, none, none, none, false, "/p/a\\b.py"⟩
        ⟨"x", "u"⟩).data.contains '\\' = true :=
  ⟨rfl, rfl⟩

/-- C10 (amended): for every configuration that passes loading and
validation, the installed filename is non-empty and contains no `/` (so
the install path `bin/<name>` appends a single component); the stronger
guarantee of containing no `\` holds whenever `install_as` is set after
loading (explicitly, or by the archive default) — the non-archive
fallback is the package file's stem, which validation never inspects. -/
theorem claim_C10 (package_fname pkg : String) (archiveAttr : Option Bool)
    (binaryAttr installAsAttr assetAttr versionAttr : Option String)
    (fpath : String) (cfg : PackageConfig) (asset : ReleaseAsset)
    (hok : load_package package_fname pkg archiveAttr binaryAttr installAsAttr
      assetAttr versionAttr fpath = .ok cfg)
    (hslash : '/' ∉ package_fname.data)
    (hne : package_fname ≠ "") :
    get_install_as cfg asset ≠ "" ∧
    '/' ∉ (get_install_as cfg asset).data ∧
    (cfg.install_as ≠ none → '\\' ∉ (get_install_as cfg asset).data) := by
  by_cases hv : pkgNameValid pkg = true
  · cases installAsAttr with
    | some s =>
      by_cases hb : (archiveAttr.getD true = true ∧ binaryAttr = none)
      · simp [load_package, hv, hb] at hok
      · by_cases hs : s = ""
        · simp [load_package, hv, hb, hs] at hok
        · by_cases hsep : ('/' ∈ s.data ∨ '\\' ∈ s.data)
          · simp [load_package, hv, hb, hs, hsep] at hok
          · simp [load_package, hv, hb, hs, hsep] at hok
            subst hok
            push_neg at hsep
            refine ⟨by simpa [get_install_as, hs] using hs, ?_, ?_⟩
            · simpa [get_install_as, hs] using hsep.1
            · intro _
              simpa [get_install_as, hs] using hsep.2
    | none =>
      cases harch : archiveAttr.getD true with
      | false =>
        have hb : ¬(archiveAttr.getD true = true ∧ binaryAttr = none) := by
          simp [harch]
        simp [load_package, hv, hb, harch] at hok
        subst hok
        refine ⟨by simpa [get_install_as] using pyStem_ne_empty hne, ?_, ?_⟩
        · simp only [get_install_as]
          exact fun hc => hslash (pyStem_sub hc)
        · intro hcontra
          exact absurd rfl hcontra
      | true =>
        by_cases hbn : binaryAttr = none
        · simp [load_package, hv, harch, hbn] at hok
        · by_cases hs : posixBasename (binaryAttr.getD "") = ""
          · simp [load_package, hv, harch, hbn, hs] at hok
          · by_cases hsep : ('/' ∈ (posixBasename (binaryAttr.getD "")).data ∨
                '\\' ∈ (posixBasename (binaryAttr.getD "")).data)
            · simp [load_package, hv, harch, hbn, hs, hsep] at hok
            · simp [load_package, hv, harch, hbn, hs, hsep] at hok
              subst hok
              push_neg at hsep
              refine ⟨by simpa [get_install_as, hs] using hs, ?_, ?_⟩
              · simpa [get_install_as, hs] using hsep.1
              · intro _
                simpa [get_install_as, hs] using hsep.2
  · simp [load_package, hv] at hok

/-- C10 witness: a concrete validated non-archive package yields a
non-empty, slash-free installed filename. -/
theorem claim_C10_witness :
    get_install_as
        ⟨"tool", "owner/repo", none, none, none, none, false, "/p/tool.py"⟩
        ⟨"x", "u"⟩ ≠ "" ∧
    '/' ∉ (get_install_as
        ⟨"tool", "owner/repo", none, none, none, none, false, "/p/tool.py"⟩
        ⟨"x", "u"⟩).data ∧
    ((⟨"tool", "owner/repo", none, none, none, none, false,
        "/p/tool.py"⟩ : PackageConfig).install_as ≠ none →
      '\\' ∉ (get_install_as
        ⟨"tool", "owner/repo", none, none, none, none, false, "/p/tool.py"⟩
        ⟨"x", "u"⟩).data) :=
  claim_C10 "tool.py" "owner/repo" (some false) none none none none "/p/tool.py"
    ⟨"tool", "owner/repo", none, none, none, none, false, "/p/tool.py"⟩
    ⟨"x", "u"⟩ rfl (by decide) (by decide)

theorem startsWith_exists : ∀ {n hay : List Char},
    startsWith hay n = true → ∃ v, hay = n ++ v := by
  intro n
  induction n with
  | nil => intro hay _; exact ⟨hay, rfl⟩
  | cons m ms ih =>
    intro hay h
    cases hay with
    | nil => simp [startsWith] at h
    | cons c t =>
      simp only [startsWith, Bool.and_eq_true, decide_eq_true_eq] at h
      obtain ⟨v, hv⟩ := ih h.2
      exact ⟨v, by simp [h.1, hv]⟩

theorem containsSub_exists : ∀ {hay n : List Char},
    containsSub hay n = true → ∃ u v, hay = u ++ n ++ v := by
  intro hay
  induction hay with
  | nil =>
    intro n h
    cases n with
    | nil => exact ⟨[], [], rfl⟩
    | cons m ms => simp [containsSub, startsWith] at h
  | cons c t ih =>
    intro n h
    simp only [containsSub, Bool.or_eq_true] at h
    rcases h with h | h
    · obtain ⟨v, hv⟩ := startsWith_exists h
      exact ⟨[], v, by simp [hv]⟩
    · obtain ⟨u, v, huv⟩ := ih h
      exact ⟨c :: u, v, by simp [huv]⟩

theorem containsSub_decomp (u n v : List Char) : containsSub (u ++ n ++ v) n = true := by
  rw [List.append_assoc]
  exact containsSub_append_left u (n ++ v) n
    (containsSub_of_startsWith (startsWith_append_self n v))

theorem containsSub_trans {hay m n : List Char} (h1 : containsSub hay m = true)
    (h2 : containsSub m n = true) : containsSub hay n = true := by
  obtain ⟨u, v, rfl⟩ := containsSub_exists h1
  obtain ⟨u2, v2, hm⟩ := containsSub_exists h2
  rw [hm]
  have hre : u ++ (u2 ++ n ++ v2) ++ v = (u ++ u2) ++ n ++ (v2 ++ v) := by
    simp [List.append_assoc]
  rw [hre]
  exact containsSub_decomp _ _ _

theorem charListLe_total : ∀ (a b : List Char),
    (charListLe a b || charListLe b a) = true := by
  intro a
  induction a with
  | nil => intro b; simp [charListLe]
  | cons x xs ih =>
    intro b
    cases b with
    | nil => simp [charListLe]
    | cons y ys =>
      by_cases hxy : x = y
      · subst hxy
        simpa [charListLe] using ih ys
      · rcases lt_trichotomy x y with h | h | h
        · simp [charListLe, hxy, h]
        · exact absurd h hxy
        · have hyx : ¬(y = x) := fun hh => hxy hh.symm
          have hnlt : ¬(x < y) := lt_asymm h
          simp [charListLe, hxy, hyx, h, hnlt]

theorem charListLe_trans : ∀ (a b c : List Char), charListLe a b = true →
    charListLe b c = true → charListLe a c = true := by
  intro a
  induction a with
  | nil => intro b c _ _; simp [charListLe]
  | cons x xs ih =>
    intro b c hab hbc
    cases b with
    | nil => simp [charListLe] at hab
    | cons y ys =>
      cases c with
      | nil => simp [charListLe] at hbc
      | cons z zs =>
        by_cases hxy : x = y <;> by_cases hyz : y = z
        · subst hxy; subst hyz
          simp only [charListLe, if_pos rfl] at hab hbc ⊢
          exact ih ys zs hab hbc
        · subst hxy
          simp only [charListLe, if_pos rfl, if_neg hyz] at hbc
          simp only [charListLe, if_neg hyz]
          exact hbc
        · subst hyz
          simp only [charListLe, if_neg hxy, if_pos rfl] at hab
          simp only [charListLe, if_neg hxy]
          exact hab
        · simp only [charListLe, if_neg hxy] at hab
          simp only [charListLe, if_neg hyz] at hbc
          have hxz : x < z := lt_trans (of_decide_eq_true hab) (of_decide_eq_true hbc)
          have hne : ¬(x = z) := ne_of_lt hxz
          simp only [charListLe, if_neg hne]
          exact decide_eq_true hxz

theorem pairLe_total : ∀ (a b : Nat × String), (pairLe a b || pairLe b a) = true := by
  intro a b
  by_cases h : a.1 < b.1
  · simp [pairLe, h]
  · by_cases h2 : b.1 < a.1
    · simp [pairLe, h2]
    · have he : a.1 = b.1 := Nat.le_antisymm (Nat.not_lt.mp h2) (Nat.not_lt.mp h)
      simp [pairLe, he, strLeB, Nat.lt_irrefl]
      rcases Bool.or_eq_true _ _ |>.mp (charListLe_total a.2.data b.2.data) with hh | hh
      · exact Or.inl hh
      · exact Or.inr hh

theorem pairLe_trans : ∀ (a b c : Nat × String), pairLe a b = true →
    pairLe b c = true → pairLe a c = true := by
  intro a b c hab hbc
  simp only [pairLe, Bool.or_eq_true, Bool.and_eq_true, decide_eq_true_eq] at hab hbc ⊢
  rcases hab with h1 | ⟨he1, hs1⟩ <;> rcases hbc with h2 | ⟨he2, hs2⟩
  · exact Or.inl (Nat.lt_trans h1 h2)
  · exact Or.inl (he2 ▸ h1)
  · exact Or.inl (he1 ▸ h2)
  · refine Or.inr ⟨he1.trans he2, ?_⟩
    simp only [strLeB] at hs1 hs2 ⊢
    exact charListLe_trans _ _ _ hs1 hs2

theorem closest_length_le (target : String) (keys : List String) :
    (get_closest_matches target keys 2).length ≤ 2 := by
  cases keys with
  | nil => simp [get_closest_matches]
  | cons k0 ks =>
    simp [get_closest_matches, List.length_map, List.length_take]

theorem closest_mem (target : String) (keys : List String) (c : String)
    (hc : c ∈ get_closest_matches target keys 2) : c ∈ keys := by
  cases keys with
  | nil => simp [get_closest_matches] at hc
  | cons k0 ks =>
    simp only [get_closest_matches] at hc
    obtain ⟨pc, hpct, hpc2⟩ := List.mem_map.mp hc
    have hpcs := List.take_subset 2 _ hpct
    have hpcsc := (List.mergeSort_perm
      ((k0 :: ks).map (fun k => (levenshtein target k, k))) pairLe).mem_iff.mp hpcs
    obtain ⟨k, hk, hfk⟩ := List.mem_map.mp hpcsc
    rw [← hfk] at hpc2
    exact hpc2 ▸ hk

theorem closest_ne_nil (target k0 : String) (ks : List String) :
    get_closest_matches target (k0 :: ks) 2 ≠ [] := by
  intro habs
  simp only [get_closest_matches] at habs
  rw [List.map_eq_nil_iff, List.take_eq_nil_iff] at habs
  rcases habs with h2 | h2
  · exact absurd h2 (by decide)
  · have hperm := List.mergeSort_perm
      ((k0 :: ks).map (fun k => (levenshtein target k, k))) pairLe
    rw [h2] at hperm
    simpa using hperm.symm.eq_nil

theorem closest_minimal (target : String) (keys : List String) {c k : String}
    (hc : c ∈ get_closest_matches target keys 2) (hk : k ∈ keys)
    (hkn : k ∉ get_closest_matches target keys 2) :
    pairLe (levenshtein target c, c) (levenshtein target k, k) = true := by
  cases keys with
  | nil => cases hk
  | cons k0 ks =>
    have hperm := List.mergeSort_perm
      ((k0 :: ks).map (fun x => (levenshtein target x, x))) pairLe
    have hsorted := List.sorted_mergeSort pairLe_trans pairLe_total
      ((k0 :: ks).map (fun x => (levenshtein target x, x)))
    simp only [get_closest_matches] at hc hkn
    obtain ⟨pc, hpct, hpc2⟩ := List.mem_map.mp hc
    have hpcsc := hperm.mem_iff.mp (List.take_subset 2 _ hpct)
    obtain ⟨kc, hkcmem, hfkc⟩ := List.mem_map.mp hpcsc
    have hpc_eq : pc = (levenshtein target c, c) := by
      rw [← hfkc] at hpc2 ⊢
      simp only at hpc2
      rw [hpc2]
    have hqk_sorted : (levenshtein target k, k) ∈
        ((k0 :: ks).map (fun x => (levenshtein target x, x))).mergeSort pairLe :=
      hperm.mem_iff.mpr (List.mem_map_of_mem _ hk)
    have hqk_not_take : (levenshtein target k, k) ∉
        (((k0 :: ks).map (fun x => (levenshtein target x, x))).mergeSort
          pairLe).take 2 := by
      intro hmem
      exact hkn (List.mem_map.mpr ⟨_, hmem, rfl⟩)
    have hqk_drop : (levenshtein target k, k) ∈
        (((k0 :: ks).map (fun x => (levenshtein target x, x))).mergeSort
          pairLe).drop 2 := by
      have hx := hqk_sorted
      rw [← List.take_append_drop 2
        (((k0 :: ks).map (fun x => (levenshtein target x, x))).mergeSort pairLe)]
        at hx
      rcases List.mem_append.mp hx with hmem | hmem
      · exact absurd hmem hqk_not_take
      · exact hmem
    rw [← List.take_append_drop 2
      (((k0 :: ks).map (fun x => (levenshtein target x, x))).mergeSort pairLe)]
      at hsorted
    have hcross := (List.pairwise_append.mp hsorted).2.2 pc hpct _ hqk_drop
    rw [hpc_eq] at hcross
    exact hcross

/-- C9: when a platform→pattern mapping lacks the current platform key,
resolution fails; the error hints to add the key, its message renders every
available key of the mapping and carries a "Closest matches" line listing
`get_closest_matches` of the key over the mapping's keys — at most two
keys, all drawn from the mapping, each no farther from the platform key
than any key left out, by (Levenshtein distance, key) order with ties
broken lexicographically. -/
theorem claim_C9 (value : List (String × String)) (platform_key nm fpath : String)
    (hne : value ≠ [])
    (hmiss : assocFind value platform_key = none) :
    ∃ e, get_platform_pattern value platform_key nm fpath = .error e ∧
      e.hint = some ("Add a \x27" ++ platform_key ++ "\x27 key to the " ++ nm ++
        " dict.") ∧
      (∀ kv ∈ value, containsSub e.message.data (pyRepr kv.1).data = true) ∧
      containsSub e.message.data
        ("Closest matches: " ++
          joinSep ", " (get_closest_matches platform_key
            (value.map (fun x => x.1)) 2)).data = true ∧
      (get_closest_matches platform_key (value.map (fun x => x.1)) 2).length ≤ 2 ∧
      (∀ c ∈ get_closest_matches platform_key (value.map (fun x => x.1)) 2,
        c ∈ value.map (fun x => x.1)) ∧
      (∀ c ∈ get_closest_matches platform_key (value.map (fun x => x.1)) 2,
        ∀ k ∈ value.map (fun x => x.1),
          k ∉ get_closest_matches platform_key (value.map (fun x => x.1)) 2 →
          pairLe (levenshtein platform_key c, c)
            (levenshtein platform_key k, k) = true) := by
  cases value with
  | nil => exact absurd rfl hne
  | cons kv0 rest =>
    have hclne : get_closest_matches platform_key
        ((kv0 :: rest).map (fun x => x.1)) 2 ≠ [] := by
      rw [List.map_cons]
      exact closest_ne_nil platform_key kv0.1 (rest.map (fun x => x.1))
    obtain ⟨c0, ctail, hcl⟩ := List.exists_cons_of_ne_nil hclne
    refine ⟨⟨joinSep "\n"
        (["Platform \x27" ++ platform_key ++ "\x27 not found in " ++ nm ++ " dict",
          "", "In " ++ fpath ++ ":"] ++
          (format_dict_block nm (kv0 :: rest)).map (fun line => "  " ++ line) ++
          ["", "Closest matches: " ++
            joinSep ", " (get_closest_matches platform_key
              ((kv0 :: rest).map (fun x => x.1)) 2)]),
        some ("Add a \x27" ++ platform_key ++ "\x27 key to the " ++ nm ++ " dict.")⟩,
      ?_, rfl, ?_, ?_, closest_length_le platform_key _,
      fun c hc => closest_mem platform_key _ c hc,
      fun c hc k hk hkn => closest_minimal platform_key _ hc hk hkn⟩
    · simp only [get_platform_pattern]
      rw [hmiss, hcl]
    · intro kv hkv
      apply containsSub_trans
        (m := ("  " ++ ("    " ++ pyRepr kv.1 ++ ": " ++
          pyRepr ((assocFind (kv0 :: rest) kv.1).getD "") ++ ",")).data)
      · apply joinSep_contains
        have h1 : kv.1 ∈ ((kv0 :: rest).map (fun e => e.1)) :=
          List.mem_map_of_mem _ hkv
        have h2 : kv.1 ∈ ((kv0 :: rest).map (fun e => e.1)).mergeSort strLeB :=
          (List.mergeSort_perm _ strLeB).mem_iff.mpr h1
        have h3 : ("    " ++ pyRepr kv.1 ++ ": " ++
            pyRepr ((assocFind (kv0 :: rest) kv.1).getD "") ++ ",") ∈
            format_dict_block nm (kv0 :: rest) := by
          simp only [format_dict_block]
          refine List.mem_cons_of_mem _ (List.mem_append_left _ ?_)
          exact List.mem_map.mpr ⟨kv.1, h2, rfl⟩
        apply List.mem_append_left
        apply List.mem_append_right
        exact List.mem_map.mpr ⟨_, h3, rfl⟩
      · have hdata : ("  " ++ ("    " ++ pyRepr kv.1 ++ ": " ++
            pyRepr ((assocFind (kv0 :: rest) kv.1).getD "") ++ ",")).data =
            ("  ".data ++ "    ".data) ++ (pyRepr kv.1).data ++
              ((": " ++ pyRepr ((assocFind (kv0 :: rest) kv.1).getD "") ++
                ",").data) := by
          simp [String.data_append, List.append_assoc]
        rw [hdata]
        exact containsSub_decomp _ _ _
    · apply joinSep_contains
      apply List.mem_append_right
      simp

/-- C9 witness: a mapping with only darwin keys, looked up for
`linux-x86_64`, fails with the closest-keys diagnostic. -/
theorem claim_C9_witness :
    ∃ e, get_platform_pattern [("darwin-arm64", "*da*"), ("darwin-x86_64", "*dx*")]
        "linux-x86_64" "asset" "/p/tool.py" = .error e ∧
      e.hint = some ("Add a \x27" ++ "linux-x86_64" ++ "\x27 key to the " ++
        "asset" ++ " dict.") ∧
      (∀ kv ∈ [("darwin-arm64", "*da*"), ("darwin-x86_64", "*dx*")],
        containsSub e.message.data (pyRepr kv.1).data = true) ∧
      containsSub e.message.data
        ("Closest matches: " ++
          joinSep ", " (get_closest_matches "linux-x86_64"
            ([("darwin-arm64", "*da*"), ("darwin-x86_64", "*dx*")].map
              (fun x => x.1)) 2)).data = true ∧
      (get_closest_matches "linux-x86_64"
        ([("darwin-arm64", "*da*"), ("darwin-x86_64", "*dx*")].map
          (fun x => x.1)) 2).length ≤ 2 ∧
      (∀ c ∈ get_closest_matches "linux-x86_64"
          ([("darwin-arm64", "*da*"), ("darwin-x86_64", "*dx*")].map
            (fun x => x.1)) 2,
        c ∈ [("darwin-arm64", "*da*"), ("darwin-x86_64", "*dx*")].map
          (fun x => x.1)) ∧
      (∀ c ∈ get_closest_matches "linux-x86_64"
          ([("darwin-arm64", "*da*"), ("darwin-x86_64", "*dx*")].map
            (fun x => x.1)) 2,
        ∀ k ∈ [("darwin-arm64", "*da*"), ("darwin-x86_64", "*dx*")].map
            (fun x => x.1),
          k ∉ get_closest_matches "linux-x86_64"
            ([("darwin-arm64", "*da*"), ("darwin-x86_64", "*dx*")].map
              (fun x => x.1)) 2 →
          pairLe (levenshtein "linux-x86_64" c, c)
            (levenshtein "linux-x86_64" k, k) = true) :=
  claim_C9 [("darwin-arm64", "*da*"), ("darwin-x86_64", "*dx*")]
    "linux-x86_64" "asset" "/p/tool.py" (by decide) (by decide)

end Ghrel
